import Mathlib

/-!
# Verification of the pytest-vts cassette engine

A shallow embedding of `src/pytest_vts/vts/__init__.py` (the `Recorder`
class), together with an executable model of the fragment of Python's
`json` module the recorder uses (`json.dumps` / `json.loads`), and proofs
of the specification's claims about the record/playback engine.

Modelling conventions:
* Python dicts of headers (`requests`' `CaseInsensitiveDict`) are modelled
  as association lists `List (String × String)`; case-insensitive `get`
  and `del` are modelled by `ciLookup` / `ciDel`.
* The filesystem is passed explicitly: cassette-file existence as a `Bool`
  and the file's content as a `String`.
* The real HTTP transport (`requests.Session.send`) is an oracle
  `send : LiveRequest → Except ε LiveResponse`; a raised exception is
  `.error e`.
* JSON values are modelled by the inductive `Json`; `dumps` follows
  Python's `json.dumps` (default separators, `\"` and `\\` escapes) and
  `loads` is a fuel-based parser for the same grammar.
-/

/-- JSON values, as produced by Python's `json.loads`: numbers are
modelled as integers (the only numbers the recorder itself produces are
HTTP status codes). -/
inductive Json where
  | null : Json
  | bool (b : Bool) : Json
  | num (n : Int) : Json
  | str (s : String) : Json
  | arr (xs : List Json) : Json
  | obj (kvs : List (String × Json)) : Json
deriving Repr

/-- Decimal digit character for `d ≤ 9` (larger arguments do not occur). -/
def digitChar : Nat → Char
  | 0 => '0' | 1 => '1' | 2 => '2' | 3 => '3' | 4 => '4'
  | 5 => '5' | 6 => '6' | 7 => '7' | 8 => '8' | _ => '9'

/-- Is `c` a decimal digit? -/
def isDigitC (c : Char) : Bool := 48 ≤ c.toNat && c.toNat ≤ 57

/-- Numeric value of a digit character. -/
def digitVal (c : Char) : Nat := c.toNat - 48

/-- Decimal digits of `n`, most significant first. -/
def natDigits (n : Nat) : List Char :=
  if _h : n < 10 then [digitChar n]
  else natDigits (n / 10) ++ [digitChar (n % 10)]
termination_by n
decreasing_by exact Nat.div_lt_self (by omega) (by omega)

/-- Decimal rendering of an integer, as `json.dumps` prints it. -/
def serInt (n : Int) : List Char :=
  if n < 0 then '-' :: natDigits n.natAbs else natDigits n.toNat

/-- JSON string-body escaping: `"` and `\` get a backslash. -/
def escapeChar (c : Char) : List Char :=
  if c = '\"' then ['\\', '\"']
  else if c = '\\' then ['\\', '\\']
  else [c]

/-- Escape every character of a string body. -/
def escStr : List Char → List Char
  | [] => []
  | c :: cs => escapeChar c ++ escStr cs

mutual

/-- Serializer for `Json`, following `json.dumps` with its default
separators `", "` and `": "`. -/
def ser : Json → List Char
  | .num n => serInt n
  | .null => ['n', 'u', 'l', 'l']
  | .str s => '\"' :: (escStr s.data ++ ['\"'])
  | .bool true => ['t', 'r', 'u', 'e']
  | .arr xs => '[' :: (serItems xs ++ [']'])
  | .bool false => ['f', 'a', 'l', 's', 'e']
  | .obj kvs => '{' :: (serPairs kvs ++ ['}'])

/-- Serialize array elements, comma-space separated. -/
def serItems : List Json → List Char
  | [] => []
  | [x] => ser x
  | x :: y :: t => ser x ++ (',' :: ' ' :: serItems (y :: t))

/-- Serialize object members, comma-space separated, `": "` after keys. -/
def serPairs : List (String × Json) → List Char
  | [] => []
  | [(k, v)] => '\"' :: (escStr k.data ++ ('\"' :: ':' :: ' ' :: ser v))
  | (k, v) :: p :: t =>
      ('\"' :: (escStr k.data ++ ('\"' :: ':' :: ' ' :: ser v)))
        ++ (',' :: ' ' :: serPairs (p :: t))

end

/-- `json.dumps`. -/
def dumps (v : Json) : String := String.mk (ser v)

/-- Whitespace as skipped by a JSON parser. -/
def isWs (c : Char) : Bool := c = ' ' || c = '\n' || c = '\t' || c = '\r'

/-- Drop leading whitespace. -/
def skipWs : List Char → List Char
  | [] => []
  | c :: cs => if isWs c then skipWs cs else c :: cs

/-- Parse a JSON string body (the opening quote already consumed); returns
the unescaped body and the input past the closing quote. -/
def parseStr : List Char → Option (List Char × List Char)
  | [] => none
  | c :: cs =>
    if c = '\"' then some ([], cs)
    else if c = '\\' then
      match cs with
      | [] => none
      | c2 :: cs2 =>
        if c2 = '\"' ∨ c2 = '\\' then
          (parseStr cs2).map (fun p => (c2 :: p.1, p.2))
        else none
    else (parseStr cs).map (fun p => (c :: p.1, p.2))
termination_by l => l.length
decreasing_by all_goals simp_arith

/-- Consume decimal digits, accumulating their value onto `acc`. -/
def parseDigitsAcc : Nat → List Char → Nat × List Char
  | acc, [] => (acc, [])
  | acc, c :: cs =>
    if isDigitC c then parseDigitsAcc (acc * 10 + digitVal c) cs
    else (acc, c :: cs)

mutual

/-- Fuel-based JSON value parser (a model of `json.loads`): skips leading
whitespace, then dispatches on the first character. -/
def parseVal : Nat → List Char → Option (Json × List Char)
  | 0, _ => none
  | Nat.succ fuel, cs =>
    match skipWs cs with
    | [] => none
    | c :: rest =>
      if isDigitC c then
        let p := parseDigitsAcc (digitVal c) rest
        some (.num (p.1 : Int), p.2)
      else if c = '-' then
        match rest with
        | [] => none
        | c2 :: r2 =>
          if isDigitC c2 then
            let p := parseDigitsAcc (digitVal c2) r2
            some (.num (-(p.1 : Int)), p.2)
          else none
      else if c = '\"' then
        match parseStr rest with
        | some (s, r) => some (.str (String.mk s), r)
        | none => none
      else if c = 'n' then
        match rest with
        | 'u' :: 'l' :: 'l' :: r => some (.null, r)
        | _ => none
      else if c = 't' then
        match rest with
        | 'r' :: 'u' :: 'e' :: r => some (.bool true, r)
        | _ => none
      else if c = 'f' then
        match rest with
        | 'a' :: 'l' :: 's' :: 'e' :: r => some (.bool false, r)
        | _ => none
      else if c = '[' then
        match parseArrItems fuel rest with
        | some (xs, r) => some (.arr xs, r)
        | none => none
      else if c = '{' then
        match parseObjPairs fuel rest with
        | some (kvs, r) => some (.obj kvs, r)
        | none => none
      else none

/-- Parse the items of an array after the opening bracket. -/
def parseArrItems : Nat → List Char → Option (List Json × List Char)
  | 0, _ => none
  | Nat.succ fuel, cs =>
    match parseVal fuel cs with
    | some (v, rest) =>
      (match skipWs rest with
       | ',' :: r2 =>
         (match parseArrItems fuel r2 with
          | some (vs, r3) => some (v :: vs, r3)
          | none => none)
       | ']' :: r2 => some ([v], r2)
       | _ => none)
    | none =>
      match skipWs cs with
      | ']' :: r => some ([], r)
      | _ => none

/-- Parse the members of an object after the opening brace. -/
def parseObjPairs : Nat → List Char → Option (List (String × Json) × List Char)
  | 0, _ => none
  | Nat.succ fuel, cs =>
    match skipWs cs with
    | '}' :: r => some ([], r)
    | '\"' :: rest =>
      (match parseStr rest with
       | some (k, r1) =>
         (match skipWs r1 with
          | ':' :: r2 =>
            (match parseVal fuel r2 with
             | some (v, r3) =>
               (match skipWs r3 with
                | ',' :: r4 =>
                  (match parseObjPairs fuel r4 with
                   | some (kvs, r5) => some ((String.mk k, v) :: kvs, r5)
                   | none => none)
                | '}' :: r4 => some ([(String.mk k, v)], r4)
                | _ => none)
             | none => none)
          | _ => none)
       | none => none)
    | _ => none

end

/-- `json.loads`: parse one value, allow only trailing whitespace; `none`
models a raised `ValueError`. -/
def loads (s : String) : Option Json :=
  match parseVal (s.length + 1) s.data with
  | some (v, rest) => if (skipWs rest).isEmpty then some v else none
  | none => none

/-! ## Round-trip: `loads (dumps v) = some v` -/

/-- The head of the remaining input is not a digit (so a number parse
cannot run past its serialized digits). -/
def noDigitHead : List Char → Prop
  | [] => True
  | c :: _ => isDigitC c = false

mutual

/-- Fuel needed by `parseVal` to parse `ser v`. -/
def jsize : Json → Nat
  | .null => 1
  | .bool _ => 1
  | .num _ => 1
  | .str _ => 1
  | .arr xs => 1 + sizeItems xs
  | .obj kvs => 1 + sizePairs kvs

/-- Fuel needed by `parseArrItems` on `serItems xs ++ ']' :: rest`. -/
def sizeItems : List Json → Nat
  | [] => 1
  | x :: t => 1 + max (jsize x) (sizeItems t)

/-- Fuel needed by `parseObjPairs` on `serPairs kvs ++ '}' :: rest`. -/
def sizePairs : List (String × Json) → Nat
  | [] => 1
  | (_, v) :: t => 1 + max (jsize v) (sizePairs t)

end

theorem jsize_pos (v : Json) : 1 ≤ jsize v := by
  cases v <;> simp [jsize]

theorem isDigitC_digitChar (d : Nat) (h : d < 10) : isDigitC (digitChar d) = true := by
  interval_cases d <;> decide

theorem digitVal_digitChar (d : Nat) (h : d < 10) : digitVal (digitChar d) = d := by
  interval_cases d <;> decide

theorem natDigits_ne_nil (n : Nat) : natDigits n ≠ [] := by
  rw [natDigits]
  split
  · simp
  · simp

theorem natDigits_all_digits (n : Nat) : ∀ c ∈ natDigits n, isDigitC c = true := by
  induction n using Nat.strong_induction_on with
  | _ n ih =>
    rw [natDigits]
    split
    · next h =>
      intro c hc
      simp at hc
      subst hc
      exact isDigitC_digitChar n h
    · next h =>
      intro c hc
      simp at hc
      rcases hc with hc | hc
      · exact ih (n / 10) (Nat.div_lt_self (by omega) (by omega)) c hc
      · subst hc
        exact isDigitC_digitChar (n % 10) (Nat.mod_lt _ (by omega))

/-- Value of a digit string folded onto an accumulator. -/
def valDigits (acc : Nat) (l : List Char) : Nat :=
  l.foldl (fun a c => a * 10 + digitVal c) acc

/-- `10 ^ (number of digits of n)`. -/
def tenPow (n : Nat) : Nat :=
  if n < 10 then 10 else tenPow (n / 10) * 10
termination_by n
decreasing_by exact Nat.div_lt_self (by omega) (by omega)

theorem parseDigitsAcc_digits (l : List Char) (hl : ∀ c ∈ l, isDigitC c = true) :
    ∀ acc rest, parseDigitsAcc acc (l ++ rest) = parseDigitsAcc (valDigits acc l) rest := by
  induction l with
  | nil => intro acc rest; simp [valDigits]
  | cons c t ih =>
    intro acc rest
    have hc : isDigitC c = true := hl c (by simp)
    simp only [List.cons_append, parseDigitsAcc, hc, if_pos, List.append_eq]
    rw [ih (fun x hx => hl x (by simp [hx]))]
    simp [valDigits]

theorem parseDigitsAcc_noDigit (acc : Nat) (rest : List Char) (hr : noDigitHead rest) :
    parseDigitsAcc acc rest = (acc, rest) := by
  cases rest with
  | nil => simp [parseDigitsAcc]
  | cons c t =>
    simp only [noDigitHead] at hr
    simp [parseDigitsAcc, hr]

theorem valDigits_natDigits (n : Nat) : ∀ acc, valDigits acc (natDigits n) = acc * tenPow n + n := by
  induction n using Nat.strong_induction_on with
  | _ n ih =>
    intro acc
    rw [natDigits, tenPow]
    split
    · next h =>
      simp [valDigits, digitVal_digitChar n h]
    · next h =>
      rw [valDigits, List.foldl_append]
      have h1 := ih (n / 10) (Nat.div_lt_self (by omega) (by omega)) acc
      rw [valDigits] at h1
      rw [h1]
      simp only [List.foldl_cons, List.foldl_nil]
      rw [digitVal_digitChar (n % 10) (Nat.mod_lt _ (by omega))]
      have hdm : n / 10 * 10 + n % 10 = n := by omega
      ring_nf
      omega

theorem natDigits_parse (m : Nat) (rest : List Char) (hr : noDigitHead rest) :
    ∃ d ds, natDigits m = d :: ds ∧ isDigitC d = true ∧
      parseDigitsAcc (digitVal d) (ds ++ rest) = (m, rest) := by
  obtain ⟨d, ds, hds⟩ : ∃ d ds, natDigits m = d :: ds := by
    cases h : natDigits m with
    | nil => exact absurd h (natDigits_ne_nil m)
    | cons a b => exact ⟨a, b, rfl⟩
  have hd : isDigitC d = true := natDigits_all_digits m d (by rw [hds]; simp)
  refine ⟨d, ds, hds, hd, ?_⟩
  have h0 : parseDigitsAcc 0 (natDigits m ++ rest) = (m, rest) := by
    rw [parseDigitsAcc_digits (natDigits m) (natDigits_all_digits m) 0 rest,
        parseDigitsAcc_noDigit _ rest hr, valDigits_natDigits]
    simp
  rw [hds] at h0
  simp only [List.cons_append, parseDigitsAcc, hd, if_pos, List.append_eq] at h0
  simpa using h0

theorem sizeItems_pos (xs : List Json) : 1 ≤ sizeItems xs := by
  cases xs <;> simp [sizeItems]

theorem sizePairs_pos (kvs : List (String × Json)) : 1 ≤ sizePairs kvs := by
  cases kvs with
  | nil => simp [sizePairs]
  | cons p t => cases p; simp [sizePairs]

theorem skipWs_cons_not_ws (c : Char) (l : List Char) (h : isWs c = false) :
    skipWs (c :: l) = c :: l := by simp [skipWs, h]

theorem skipWs_append_ws (pre l : List Char) (h : ∀ c ∈ pre, isWs c = true) :
    skipWs (pre ++ l) = skipWs l := by
  induction pre with
  | nil => simp
  | cons c t ih =>
    simp only [List.cons_append, skipWs, h c (by simp), if_pos]
    exact ih (fun x hx => h x (by simp [hx]))

theorem parseStr_escStr (l rest : List Char) :
    parseStr (escStr l ++ ('\"' :: rest)) = some (l, rest) := by
  induction l with
  | nil =>
    rw [escStr]
    rw [parseStr.eq_def]
    simp
  | cons c t ih =>
    rw [escStr, escapeChar]
    by_cases h1 : c = '\"'
    · subst h1
      simp only [if_pos rfl, List.cons_append, List.nil_append, List.append_assoc]
      rw [parseStr.eq_def]
      simp [ih]
    · by_cases h2 : c = '\\'
      · subst h2
        simp only [if_neg h1, if_pos rfl, List.cons_append, List.nil_append, List.append_assoc]
        rw [parseStr.eq_def]
        simp [ih]
      · simp only [if_neg h1, if_neg h2, List.cons_append, List.nil_append]
        rw [parseStr.eq_def]
        simp [h1, h2, ih]

theorem not_ws_of_digit (c : Char) (h : isDigitC c = true) : isWs c = false := by
  cases hw : isWs c
  · rfl
  · exfalso
    simp [isWs] at hw
    rcases hw with ((rfl | rfl) | rfl) | rfl <;> exact absurd h (by decide)

theorem sizeItems_cons_head (x : Json) (t : List Json) (n : Nat)
    (h : sizeItems (x :: t) <= n + 1) : jsize x <= n := by
  rw [sizeItems] at h
  have := le_max_left (jsize x) (sizeItems t)
  omega

theorem sizeItems_cons_tail (x : Json) (t : List Json) (n : Nat)
    (h : sizeItems (x :: t) <= n + 1) : sizeItems t <= n := by
  rw [sizeItems] at h
  have := le_max_right (jsize x) (sizeItems t)
  omega

theorem sizePairs_cons_head (k : String) (v : Json) (t : List (String × Json)) (n : Nat)
    (h : sizePairs ((k, v) :: t) <= n + 1) : jsize v <= n := by
  rw [sizePairs] at h
  have := le_max_left (jsize v) (sizePairs t)
  omega

theorem sizePairs_cons_tail (k : String) (v : Json) (t : List (String × Json)) (n : Nat)
    (h : sizePairs ((k, v) :: t) <= n + 1) : sizePairs t <= n := by
  rw [sizePairs] at h
  have := le_max_right (jsize v) (sizePairs t)
  omega

theorem parseVal_close_none (fuel : Nat) (pre l : List Char)
    (hpre : ∀ c ∈ pre, isWs c = true) (c : Char) (hc : c = ']' ∨ c = '}') :
    parseVal fuel (pre ++ (c :: l)) = none := by
  cases fuel with
  | zero => rw [parseVal]
  | succ fuel =>
    rw [parseVal]
    rw [skipWs_append_ws pre _ hpre]
    rcases hc with hc | hc <;> subst hc
    · rw [skipWs_cons_not_ws _ _ (by decide)]
      simp [show isDigitC ']' = false from by decide]
    · rw [skipWs_cons_not_ws _ _ (by decide)]
      simp [show isDigitC '}' = false from by decide]

theorem parse_ser_main : ∀ fuel : Nat,
    (∀ (v : Json) (pre rest : List Char), (∀ c ∈ pre, isWs c = true) →
      noDigitHead rest → jsize v ≤ fuel →
      parseVal fuel (pre ++ (ser v ++ rest)) = some (v, rest)) ∧
    (∀ (xs : List Json) (pre rest : List Char), (∀ c ∈ pre, isWs c = true) →
      sizeItems xs ≤ fuel →
      parseArrItems fuel (pre ++ (serItems xs ++ (']' :: rest))) = some (xs, rest)) ∧
    (∀ (kvs : List (String × Json)) (pre rest : List Char), (∀ c ∈ pre, isWs c = true) →
      sizePairs kvs ≤ fuel →
      parseObjPairs fuel (pre ++ (serPairs kvs ++ ('}' :: rest))) = some (kvs, rest)) := by
  intro fuel
  induction fuel with
  | zero =>
    refine ⟨?_, ?_, ?_⟩
    · intro v _ _ _ _ h
      exact absurd h (by have := jsize_pos v; omega)
    · intro xs _ _ _ h
      exact absurd h (by have := sizeItems_pos xs; omega)
    · intro kvs _ _ _ h
      exact absurd h (by have := sizePairs_pos kvs; omega)
  | succ fuel ih =>
    obtain ⟨ihV, ihA, ihO⟩ := ih
    refine ⟨?_, ?_, ?_⟩
    · -- parseVal on ser v
      intro v pre rest hpre hrest hsz
      cases v with
      | null =>
        rw [ser]
        simp only [List.cons_append]
        rw [parseVal, skipWs_append_ws pre _ hpre, skipWs_cons_not_ws _ _ (by decide)]
        simp [show isDigitC 'n' = false from by decide]
      | bool b =>
        cases b
        · rw [ser]
          simp only [List.cons_append]
          rw [parseVal, skipWs_append_ws pre _ hpre, skipWs_cons_not_ws _ _ (by decide)]
          simp [show isDigitC 'f' = false from by decide]
        · rw [ser]
          simp only [List.cons_append]
          rw [parseVal, skipWs_append_ws pre _ hpre, skipWs_cons_not_ws _ _ (by decide)]
          simp [show isDigitC 't' = false from by decide]
      | num n =>
        rw [ser, serInt]
        by_cases hn : n < 0
        · rw [if_pos hn]
          obtain ⟨d, ds, hds, hd, hparse⟩ := natDigits_parse n.natAbs rest hrest
          simp only [List.cons_append]
          rw [parseVal, skipWs_append_ws pre _ hpre, skipWs_cons_not_ws _ _ (by decide), hds]
          simp only [List.cons_append]
          simp [show isDigitC '-' = false from by decide, hd, hparse]
          rw [abs_of_nonpos (by omega)]
          simp
        · rw [if_neg hn]
          obtain ⟨d, ds, hds, hd, hparse⟩ := natDigits_parse n.toNat rest hrest
          rw [parseVal, skipWs_append_ws pre _ hpre, hds]
          simp only [List.cons_append]
          rw [skipWs_cons_not_ws _ _ (not_ws_of_digit d hd)]
          simp [hd, hparse]
          omega
      | str s =>
        obtain ⟨sl⟩ := s
        rw [ser]
        simp only [List.cons_append, List.append_assoc]
        rw [parseVal, skipWs_append_ws pre _ hpre, skipWs_cons_not_ws _ _ (by decide)]
        have hk := parseStr_escStr sl rest
        simp [show isDigitC '\"' = false from by decide, hk]
      | arr xs =>
        rw [ser]
        simp only [List.cons_append, List.append_assoc]
        rw [parseVal, skipWs_append_ws pre _ hpre, skipWs_cons_not_ws _ _ (by decide)]
        have ha := ihA xs [] rest (by simp) (by rw [jsize] at hsz; omega)
        simp only [List.nil_append] at ha
        simp [show isDigitC '[' = false from by decide, ha]
      | obj kvs =>
        rw [ser]
        simp only [List.cons_append, List.append_assoc]
        rw [parseVal, skipWs_append_ws pre _ hpre, skipWs_cons_not_ws _ _ (by decide)]
        have ho := ihO kvs [] rest (by simp) (by rw [jsize] at hsz; omega)
        simp only [List.nil_append] at ho
        simp [show isDigitC '{' = false from by decide, ho]
    · -- parseArrItems on serItems xs
      intro xs pre rest hpre hsz
      cases xs with
      | nil =>
        rw [parseArrItems, serItems]
        simp only [List.nil_append]
        rw [parseVal_close_none fuel pre _ hpre ']' (Or.inl rfl)]
        rw [skipWs_append_ws pre _ hpre, skipWs_cons_not_ws _ _ (by decide)]
        simp
      | cons x t =>
        cases t with
        | nil =>
          rw [parseArrItems, serItems]
          have hv := ihV x pre (']' :: rest) hpre (by simp [noDigitHead]; decide)
            (sizeItems_cons_head x [] fuel hsz)
          rw [hv]
          simp [skipWs_cons_not_ws ']' rest (by decide)]
        | cons y t' =>
          rw [parseArrItems, serItems]
          simp only [List.cons_append, List.append_assoc]
          have hv := ihV x pre (',' :: ' ' :: (serItems (y :: t') ++ (']' :: rest))) hpre
            (by simp [noDigitHead]; decide) (sizeItems_cons_head x (y :: t') fuel hsz)
          simp only [List.cons_append, List.append_assoc] at hv
          rw [hv]
          have ha := ihA (y :: t') [' '] rest (by simp [isWs])
            (sizeItems_cons_tail x (y :: t') fuel hsz)
          simp only [List.cons_append, List.nil_append] at ha
          simp [skipWs_cons_not_ws ',' (' ' :: (serItems (y :: t') ++ (']' :: rest))) (by decide),
            ha]
    · -- parseObjPairs on serPairs kvs
      intro kvs pre rest hpre hsz
      cases kvs with
      | nil =>
        rw [parseObjPairs, serPairs]
        simp only [List.nil_append]
        rw [skipWs_append_ws pre _ hpre, skipWs_cons_not_ws _ _ (by decide)]
        simp
      | cons kv t =>
        obtain ⟨k, v⟩ := kv
        obtain ⟨kl⟩ := k
        cases t with
        | nil =>
          rw [parseObjPairs, serPairs]
          simp only [List.cons_append, List.append_assoc]
          rw [skipWs_append_ws pre _ hpre, skipWs_cons_not_ws _ _ (by decide)]
          have hk := parseStr_escStr kl (':' :: ' ' :: (ser v ++ ('}' :: rest)))
          simp only [List.cons_append, List.append_assoc] at hk
          have hv := ihV v [' '] ('}' :: rest) (by simp [isWs]) (by simp [noDigitHead]; decide)
            (sizePairs_cons_head _ v [] fuel hsz)
          simp only [List.cons_append, List.nil_append] at hv
          simp [hk, hv, skipWs_cons_not_ws _ _ (show isWs ':' = false from by decide),
            skipWs_cons_not_ws _ _ (show isWs '}' = false from by decide)]
        | cons kv2 t' =>
          rw [parseObjPairs, serPairs]
          simp only [List.cons_append, List.append_assoc]
          rw [skipWs_append_ws pre _ hpre, skipWs_cons_not_ws _ _ (by decide)]
          have hk := parseStr_escStr kl
            (':' :: ' ' :: (ser v ++ (',' :: ' ' :: (serPairs (kv2 :: t') ++ ('}' :: rest)))))
          simp only [List.cons_append, List.append_assoc] at hk
          have hv := ihV v [' '] (',' :: ' ' :: (serPairs (kv2 :: t') ++ ('}' :: rest)))
            (by simp [isWs]) (by simp [noDigitHead]; decide)
            (sizePairs_cons_head _ v (kv2 :: t') fuel hsz)
          simp only [List.cons_append, List.nil_append] at hv
          have ho := ihO (kv2 :: t') [' '] rest (by simp [isWs])
            (sizePairs_cons_tail _ v (kv2 :: t') fuel hsz)
          simp only [List.cons_append, List.nil_append] at ho
          simp [hk, hv, ho, skipWs_cons_not_ws _ _ (show isWs ':' = false from by decide),
            skipWs_cons_not_ws _ _ (show isWs ',' = false from by decide)]

theorem sizeItems_nil_eq : sizeItems ([] : List Json) = 1 := by rw [sizeItems]

theorem sizePairs_nil_eq : sizePairs ([] : List (String × Json)) = 1 := by rw [sizePairs]

theorem jsize_le_ser_aux : ∀ n : Nat,
    (∀ v : Json, jsize v ≤ n → jsize v ≤ (ser v).length) ∧
    (∀ xs : List Json, sizeItems xs ≤ n → sizeItems xs ≤ 1 + (serItems xs).length) ∧
    (∀ kvs : List (String × Json), sizePairs kvs ≤ n → sizePairs kvs ≤ 1 + (serPairs kvs).length) := by
  intro n
  induction n with
  | zero =>
    refine ⟨?_, ?_, ?_⟩
    · intro v h
      exact absurd h (by have := jsize_pos v; omega)
    · intro xs h
      exact absurd h (by have := sizeItems_pos xs; omega)
    · intro kvs h
      exact absurd h (by have := sizePairs_pos kvs; omega)
  | succ n ih =>
    obtain ⟨ihV, ihA, ihO⟩ := ih
    refine ⟨?_, ?_, ?_⟩
    · intro v hv
      cases v with
      | null => simp [jsize, ser]
      | bool b => cases b <;> simp [jsize, ser]
      | num m =>
        rw [jsize, ser, serInt]
        split
        · simp
        · have := List.length_pos.mpr (natDigits_ne_nil m.toNat)
          omega
      | str s => simp [jsize, ser]
      | arr xs =>
        rw [jsize] at hv ⊢
        rw [ser]
        have h := ihA xs (by omega)
        simp only [List.length_cons, List.length_append, List.length_singleton]
        omega
      | obj kvs =>
        rw [jsize] at hv ⊢
        rw [ser]
        have h := ihO kvs (by omega)
        simp only [List.length_cons, List.length_append, List.length_singleton]
        omega
    · intro xs hxs
      cases xs with
      | nil => simp [sizeItems_nil_eq, serItems]
      | cons x t =>
        have hx : jsize x ≤ (ser x).length :=
          ihV x (sizeItems_cons_head x t n hxs)
        have hxp : 1 ≤ jsize x := jsize_pos x
        cases t with
        | nil =>
          rw [sizeItems, sizeItems_nil_eq, serItems]
          have hm : max (jsize x) 1 ≤ (ser x).length := max_le hx (le_trans hxp hx)
          omega
        | cons y t' =>
          have ht : sizeItems (y :: t') ≤ 1 + (serItems (y :: t')).length :=
            ihA (y :: t') (sizeItems_cons_tail x (y :: t') n hxs)
          rw [sizeItems, serItems]
          simp only [List.length_append, List.length_cons]
          have hm : max (jsize x) (sizeItems (y :: t')) ≤
              (ser x).length + (serItems (y :: t')).length + 1 :=
            max_le (by omega) (by omega)
          omega
    · intro kvs hkvs
      cases kvs with
      | nil => simp [sizePairs_nil_eq, serPairs]
      | cons kv t =>
        obtain ⟨k, v⟩ := kv
        have hx : jsize v ≤ (ser v).length :=
          ihV v (sizePairs_cons_head k v t n hkvs)
        have hxp : 1 ≤ jsize v := jsize_pos v
        cases t with
        | nil =>
          rw [sizePairs, sizePairs_nil_eq, serPairs]
          simp only [List.length_append, List.length_cons]
          have hm : max (jsize v) 1 ≤ (ser v).length := max_le hx (le_trans hxp hx)
          omega
        | cons kv2 t' =>
          have ht : sizePairs (kv2 :: t') ≤ 1 + (serPairs (kv2 :: t')).length :=
            ihO (kv2 :: t') (sizePairs_cons_tail k v (kv2 :: t') n hkvs)
          rw [sizePairs, serPairs]
          simp only [List.length_append, List.length_cons]
          have hm : max (jsize v) (sizePairs (kv2 :: t')) ≤
              (escStr k.data).length + ((ser v).length + ((serPairs (kv2 :: t')).length + 5)) :=
            max_le (by omega) (by omega)
          omega

theorem jsize_le_ser (v : Json) : jsize v ≤ (ser v).length :=
  (jsize_le_ser_aux (jsize v)).1 v le_rfl

/-- Round-trip: re-parsing a serialized JSON value gives the value back. -/
theorem loads_dumps (v : Json) : loads (dumps v) = some v := by
  have h := (parse_ser_main ((ser v).length + 1)).1 v [] []
    (by simp) (by simp [noDigitHead]) (by have := jsize_le_ser v; omega)
  simp only [List.nil_append, List.append_nil] at h
  rw [loads]
  have hd : (dumps v).data = ser v := rfl
  have hl : (dumps v).length = (ser v).length := rfl
  rw [hd, hl, h]
  simp [skipWs]

/-! ## HTTP data model

Headers model `requests`' `CaseInsensitiveDict`: an association list with
case-insensitive lookup and deletion (a `CaseInsensitiveDict` holds at most
one entry per case-insensitive key, so deletion removes every
case-insensitive match). -/

/-- Header mappings. -/
abbrev Headers := List (String × String)

/-- Case-insensitive key comparison (`CaseInsensitiveDict` lowercases
keys); structurally recursive so concrete instances evaluate. -/
def lowerEqCL : List Char → List Char → Bool
  | [], [] => true
  | a :: as, b :: bs => (a.toLower == b.toLower) && lowerEqCL as bs
  | _, _ => false

/-- Case-insensitive equality of header keys. -/
def keyEq (a b : String) : Bool := lowerEqCL a.data b.data

/-- Case-insensitive lookup, as `CaseInsensitiveDict.__getitem__`/`get`. -/
def ciLookup (hs : Headers) (key : String) : Option String :=
  (hs.find? (fun p => keyEq p.1 key)).map (fun p => p.2)

/-- `headers.get(key, dflt)`. -/
def ciGetD (hs : Headers) (key dflt : String) : String :=
  (ciLookup hs key).getD dflt

/-- `del headers[key]` on a `CaseInsensitiveDict`. -/
def ciDel (hs : Headers) (key : String) : Headers :=
  hs.filter (fun p => !(keyEq p.1 key))

/-- Does `hay` start with `needle`? -/
def startsWithL : List Char → List Char → Bool
  | _, [] => true
  | [], _ :: _ => false
  | a :: hay, b :: needle => a == b && startsWithL hay needle

/-- Substring containment over char lists. -/
def containsSubList (needle : List Char) : List Char → Bool
  | [] => needle.isEmpty
  | c :: t => startsWithL (c :: t) needle || containsSubList needle t

/-- Python's `needle in hay` on strings. -/
def containsStr (hay needle : String) : Bool := containsSubList needle.data hay.data

/-- A prepared outgoing HTTP request (`requests.PreparedRequest`). -/
structure LiveRequest where
  method : String
  url : String
  path_url : String
  headers : Headers
  body : Option String
deriving Repr, DecidableEq

/-- A live HTTP response (`requests.Response`): `resp.json()` is modelled
as `loads text` (raising `ValueError`, i.e. `none`, on non-JSON bodies). -/
structure LiveResponse where
  status_code : Int
  headers : Headers
  text : String
deriving Repr, DecidableEq

/-- The `track["request"]` part of a cassette track. -/
structure TrackRequest where
  method : String
  url : String
  path : String
  headers : Headers
  body : Option String
deriving Repr

/-- The `track["response"]` part of a cassette track. -/
structure TrackResponse where
  status_code : Int
  headers : Headers
  body : Json
deriving Repr

/-- One recorded HTTP exchange. -/
structure Track where
  request : TrackRequest
  response : TrackResponse
deriving Repr

/-! ## Cassette JSON codec

`teardown` persists the cassette with `json.dumps(self.cassette)`;
`_insert_cassette` re-reads it with `json.loads`.  `trackToJson` spells
out the dict literals built in `Recorder.record`; the decoders model the
key accesses that `rewind_cassette`/`play` perform on the loaded dicts
(Python surfaces shape mismatches slightly later, as `KeyError`/`TypeError`
during rewind or replay; no claim depends on that timing). -/

/-- A header dict as a JSON object (insertion order preserved). -/
def headersToJson (hs : Headers) : Json := .obj (hs.map (fun p => (p.1, .str p.2)))

/-- A request body (`str` or `None`) as a JSON value. -/
def optStrToJson : Option String → Json
  | none => .null
  | some s => .str s

/-- The JSON object `Recorder.record` builds for one track. -/
def trackToJson (t : Track) : Json :=
  .obj [("request", .obj [
          ("method", .str t.request.method),
          ("url", .str t.request.url),
          ("path", .str t.request.path),
          ("headers", headersToJson t.request.headers),
          ("body", optStrToJson t.request.body)]),
        ("response", .obj [
          ("status_code", .num t.response.status_code),
          ("headers", headersToJson t.response.headers),
          ("body", t.response.body)])]

/-- `json.dumps(self.cassette)`: the cassette is a JSON array of tracks. -/
def cassetteToJson (c : List Track) : Json := .arr (c.map trackToJson)

/-- Key access on a loaded JSON dict (`d[key]`). -/
def getField (j : Json) (key : String) : Option Json :=
  match j with
  | .obj kvs => (kvs.find? (fun p => p.1 == key)).map (fun p => p.2)
  | _ => none

/-- A JSON value expected to be a string. -/
def jsonToStr : Json → Option String
  | .str s => some s
  | _ => none

/-- Members of a JSON object read back as a header dict. -/
def pairsToHeaders : List (String × Json) → Option Headers
  | [] => some []
  | (k, .str v) :: t => (pairsToHeaders t).map (fun hs => (k, v) :: hs)
  | _ => none

/-- A JSON value read back as a header dict. -/
def headersFromJson : Json → Option Headers
  | .obj kvs => pairsToHeaders kvs
  | _ => none

/-- A JSON value read back as a request body (`str` or `None`). -/
def optStrFromJson : Json → Option (Option String)
  | .null => some none
  | .str s => some (some s)
  | _ => none

/-- One loaded JSON value read back as a track (the fields
`rewind_cassette` and `play` access). -/
def trackFromJson (j : Json) : Option Track := do
  let reqJ ← getField j "request"
  let respJ ← getField j "response"
  let m ← (getField reqJ "method").bind jsonToStr
  let u ← (getField reqJ "url").bind jsonToStr
  let p ← (getField reqJ "path").bind jsonToStr
  let hs ← (getField reqJ "headers").bind headersFromJson
  let b ← (getField reqJ "body").bind optStrFromJson
  let scJ ← getField respJ "status_code"
  let sc ← match scJ with | .num n => some n | _ => none
  let rhs ← (getField respJ "headers").bind headersFromJson
  let rb ← getField respJ "body"
  some { request := { method := m, url := u, path := p, headers := hs, body := b },
         response := { status_code := sc, headers := rhs, body := rb } }

/-- The loaded cassette as a list of tracks. -/
def tracksFromJson : List Json → Option (List Track)
  | [] => some []
  | j :: t =>
    match trackFromJson j with
    | some tr => (tracksFromJson t).map (fun c => tr :: c)
    | none => none

/-- A loaded JSON value read back as a cassette. -/
def cassetteFromJson (j : Json) : Option (List Track) :=
  match j with
  | .arr items => tracksFromJson items
  | _ => none

/-! ## The `responses` mock and the `Recorder` state

`responses.RequestsMock` is modelled by its observable state: whether the
patch is active (`start`/`stop`) and the ordered list of registered
stand-ins (`add_callback`/`reset`).  Dispatch (`_find_match`) returns the
first registration whose method equals the request's method and whose URL
pattern matches the request's URL; when none matches, `responses` raises
`ConnectionError`. -/

/-- URL patterns accepted by `add_callback`: the recording callback is
registered under `re.compile("http.*")` (which `re.match`es any URL
starting with `"http"`); playback stubs are registered under the track's
URL string with `match_querystring=True` (exact comparison). -/
inductive UrlPattern where
  | allHttp
  | exactUrl (url : String)
deriving Repr, DecidableEq

/-- URL matching as performed by `responses`. -/
def urlMatches : UrlPattern → String → Bool
  | .allHttp, u => startsWithL u.data ['h', 't', 't', 'p']
  | .exactUrl u', u => u' == u

/-- The two kinds of callbacks the recorder registers. -/
inductive StandIn where
  | record
  | play (response : TrackResponse)
deriving Repr

/-- One `add_callback` registration. -/
structure Registration where
  method : String
  pattern : UrlPattern
  callback : StandIn
deriving Repr

/-- Observable state of the `responses.RequestsMock`. -/
structure MockState where
  started : Bool
  callbacks : List Registration
deriving Repr

/-- `responses._find_match`: first registration matching method and URL. -/
def findMatch (regs : List Registration) (req : LiveRequest) : Option Registration :=
  regs.find? (fun reg => reg.method == req.method && urlMatches reg.pattern req.url)

/-- Which `setup_*` branch ran (the spec's session state machine). -/
inductive Mode where
  | recording
  | playing
deriving Repr, DecidableEq

/-- State of a `Recorder` object; `mode` materializes which branch of
`setup` ran (`none` before `setup`). -/
structure RecorderState where
  cassette : List Track
  has_recorded : Bool
  responses : MockState
  mode : Option Mode
deriving Repr

/-- Errors raised while loading a cassette: `corruptCassette` is the
`ValueError` from `json.loads` on invalid JSON; `trackShape` stands for
the later `KeyError`/`TypeError` when valid JSON does not have the track
shape. -/
inductive VtsError where
  | corruptCassette
  | trackShape
deriving Repr, DecidableEq

/-- Exceptions surfacing from a dispatched request: `connectionError` is
what `responses` raises when no stand-in matches; `sendError e` re-raises
the transport exception `e` from the real call during recording. -/
inductive DispatchError (ε : Type) where
  | connectionError
  | sendError (e : ε)
deriving Repr, DecidableEq

/-- Observable side effects of handling one request. -/
inductive Event where
  | realCall (req : LiveRequest)
deriving Repr, DecidableEq

namespace Recorder

/-- `Recorder.__init__`: empty cassette, nothing recorded, a fresh
`RequestsMock` (not yet started, no callbacks). -/
def initialState : RecorderState :=
  { cassette := [], has_recorded := false,
    responses := { started := false, callbacks := [] }, mode := none }

/-- `Recorder.play`: the playback callback closed over one track's
`response` dict; it ignores the live request it receives. -/
def play (response : TrackResponse) : LiveRequest → Int × Headers × String :=
  fun _http_req => (response.status_code, response.headers, dumps response.body)

/-- The gzip-stripping step of `Recorder.record`: if the live response's
`Content-Encoding` header (case-insensitive) mentions `gzip`, it is
deleted — the body has already been decoded by the transport. -/
def recordHeaders (resp : LiveResponse) : Headers :=
  let content_encoding := ciGetD resp.headers "Content-Encoding" ""
  if containsStr content_encoding "gzip" then ciDel resp.headers "Content-Encoding"
  else resp.headers

/-- The body step of `Recorder.record`: try `resp.json()`; on success the
track stores the parsed value and the caller gets its `json.dumps`
re-serialization; on `ValueError` both are the raw text. -/
def recordBody (resp : LiveResponse) : Json × String :=
  match loads resp.text with
  | some body => (body, dumps body)
  | none => (.str resp.text, resp.text)

/-- The track `Recorder.record` builds for one successful exchange. -/
def encodeTrack (req : LiveRequest) (resp : LiveResponse) : Track :=
  { request := { method := req.method, url := req.url, path := req.path_url,
                 headers := req.headers, body := req.body },
    response := { status_code := resp.status_code, headers := recordHeaders resp,
                  body := (recordBody resp).1 } }

/-- `Recorder.record`'s callback: build the request part, stop
interception, perform the real call (timeout 2s) through the transport
oracle `send`; an exception propagates (and the `finally` still restarts
interception); on success append the encoded track, set `has_recorded`,
restart interception and return the real status/headers/body. -/
def record {ε : Type} (send : LiveRequest → Except ε LiveResponse)
    (st : RecorderState) (http_prep_req : LiveRequest) :
    Except (DispatchError ε) (Int × Headers × String) × RecorderState × List Event :=
  let stStopped : RecorderState :=
    { st with responses := { st.responses with started := false } }
  match send http_prep_req with
  | .error e =>
    (.error (.sendError e),
     { stStopped with responses := { stStopped.responses with started := true } },
     [.realCall http_prep_req])
  | .ok resp =>
    let track := encodeTrack http_prep_req resp
    (.ok (resp.status_code, recordHeaders resp, (recordBody resp).2),
     { stStopped with
        cassette := stStopped.cassette ++ [track],
        has_recorded := true,
        responses := { stStopped.responses with started := true } },
     [.realCall http_prep_req])

/-- `Recorder.setup_recording`: reset the mock, then register the single
recording callback for method `GET` under the pattern
`re.compile("http.*")`. -/
def setup_recording (st : RecorderState) : RecorderState :=
  { st with
    mode := some .recording,
    responses := { started := st.responses.started,
                   callbacks := [{ method := "GET", pattern := .allHttp,
                                   callback := .record }] } }

/-- The registrations `Recorder.rewind_cassette` performs: one
`add_callback(req['method'], req['url'], match_querystring=True,
callback=self.play(track['response']))` per track, in cassette order. -/
def rewind_registrations (tracks : List Track) : List Registration :=
  tracks.map (fun t => { method := t.request.method,
                         pattern := .exactUrl t.request.url,
                         callback := .play t.response })

/-- `Recorder.setup_playback`: `_insert_cassette` (read the file, parse it
with `json.loads` — a `ValueError` aborts setup with the mock still empty),
then reset the mock and rewind the cassette into playback stand-ins. -/
def setup_playback (st : RecorderState) (content : String) :
    Except (VtsError × RecorderState) RecorderState :=
  match loads content with
  | none => .error (.corruptCassette, st)
  | some j =>
    match cassetteFromJson j with
    | none => .error (.trackShape, st)
    | some tracks =>
      .ok { st with
            mode := some .playing,
            cassette := tracks,
            responses := { started := st.responses.started,
                           callbacks := rewind_registrations tracks } }

/-- `Recorder.setup`: start the mock, then branch on cassette-file
existence (`has_cassette`): no file ⇒ recording, file ⇒ playback. -/
def setup (fileExists : Bool) (content : String) :
    Except (VtsError × RecorderState) RecorderState :=
  let st : RecorderState :=
    { initialState with
      responses := { started := true, callbacks := initialState.responses.callbacks } }
  if !fileExists then .ok (setup_recording st)
  else setup_playback st content

/-- `Recorder.teardown`: stop the mock, reset its registrations, and write
`json.dumps(self.cassette)` to the cassette file iff `has_recorded`. -/
def teardown (st : RecorderState) : RecorderState × Option String :=
  let st' : RecorderState :=
    { st with responses := { started := false, callbacks := [] } }
  if st.has_recorded then (st', some (dumps (cassetteToJson st.cassette)))
  else (st', none)

/-- Dispatch of one live request through the `responses` mock: find the
first matching stand-in (none ⇒ `ConnectionError`) and run its callback. -/
def handleRequest {ε : Type} (send : LiveRequest → Except ε LiveResponse)
    (st : RecorderState) (req : LiveRequest) :
    Except (DispatchError ε) (Int × Headers × String) × RecorderState × List Event :=
  match findMatch st.responses.callbacks req with
  | none => (.error .connectionError, st, [])
  | some reg =>
    match reg.callback with
    | .record => record send st req
    | .play resp => (.ok (play resp req), st, [])

/-- Handle a sequence of live requests in order, collecting results and
transport events. -/
def runRequests {ε : Type} (send : LiveRequest → Except ε LiveResponse)
    (st : RecorderState) :
    List LiveRequest →
      RecorderState × List (Except (DispatchError ε) (Int × Headers × String)) × List Event
  | [] => (st, [], [])
  | r :: rs =>
    let step := handleRequest send st r
    let restRun := runRequests send step.2.1 rs
    (restRun.1, step.1 :: restRun.2.1, step.2.2 ++ restRun.2.2)

end Recorder

/-! ## Codec round-trip lemmas -/

theorem pairsToHeaders_map (hs : Headers) :
    pairsToHeaders (hs.map (fun p => (p.1, Json.str p.2))) = some hs := by
  induction hs with
  | nil => simp [pairsToHeaders]
  | cons p t ih =>
    obtain ⟨k, v⟩ := p
    simp [pairsToHeaders, ih]

theorem headersFromJson_headersToJson (hs : Headers) :
    headersFromJson (headersToJson hs) = some hs := by
  rw [headersToJson, headersFromJson]
  exact pairsToHeaders_map hs

theorem trackFromJson_trackToJson (t : Track) :
    trackFromJson (trackToJson t) = some t := by
  obtain ⟨⟨m, u, p, hs, b⟩, ⟨sc, rhs, rb⟩⟩ := t
  cases b <;>
    simp [trackFromJson, trackToJson, getField, jsonToStr, optStrToJson, optStrFromJson,
      headersFromJson_headersToJson]

theorem tracksFromJson_map (c : List Track) :
    tracksFromJson (c.map trackToJson) = some c := by
  induction c with
  | nil => simp [tracksFromJson]
  | cons t rest ih =>
    simp [tracksFromJson, trackFromJson_trackToJson, ih]

theorem cassetteFromJson_cassetteToJson (c : List Track) :
    cassetteFromJson (cassetteToJson c) = some c := by
  rw [cassetteToJson, cassetteFromJson]
  exact tracksFromJson_map c

/-- Persist-then-load: `setup` in playback mode on a cassette file written
by `teardown` recovers exactly the recorded tracks. -/
theorem setup_playback_of_dump (c : List Track) (st : RecorderState) :
    Recorder.setup_playback st (dumps (cassetteToJson c)) =
      .ok { st with
            mode := some .playing,
            cassette := c,
            responses := { started := st.responses.started,
                           callbacks := Recorder.rewind_registrations c } } := by
  rw [Recorder.setup_playback, loads_dumps]
  simp [cassetteFromJson_cassetteToJson]

/-! ## Session invariants -/

namespace Recorder

/-- One dispatched request never changes the session mode or the set of
registered stand-ins, can only grow the cassette, and sets `has_recorded`
exactly when it appends a track. -/
theorem handleRequest_inv {ε : Type} (send : LiveRequest → Except ε LiveResponse)
    (st : RecorderState) (req : LiveRequest) :
    ((handleRequest send st req).2.1.mode = st.mode) ∧
    ((handleRequest send st req).2.1.responses.callbacks = st.responses.callbacks) ∧
    (st.cassette.length ≤ (handleRequest send st req).2.1.cassette.length) ∧
    ((handleRequest send st req).2.1.has_recorded = true ↔
      (st.has_recorded = true ∨
        st.cassette.length < (handleRequest send st req).2.1.cassette.length)) := by
  rw [handleRequest]
  split
  · simp
  · split
    · rw [record]
      split
      · simp
      · simp
    · simp

/-- `handleRequest_inv` folded over a request sequence. -/
theorem runRequests_inv {ε : Type} (send : LiveRequest → Except ε LiveResponse) :
    ∀ (reqs : List LiveRequest) (st : RecorderState),
    ((runRequests send st reqs).1.mode = st.mode) ∧
    ((runRequests send st reqs).1.responses.callbacks = st.responses.callbacks) ∧
    (st.cassette.length ≤ (runRequests send st reqs).1.cassette.length) ∧
    ((runRequests send st reqs).1.has_recorded = true ↔
      (st.has_recorded = true ∨
        st.cassette.length < (runRequests send st reqs).1.cassette.length)) := by
  intro reqs
  induction reqs with
  | nil =>
    intro st
    rw [runRequests]
    simp
  | cons r rs ih =>
    intro st
    obtain ⟨hm1, hc1, hl1, hr1⟩ := handleRequest_inv send st r
    obtain ⟨hm2, hc2, hl2, hr2⟩ := ih (handleRequest send st r).2.1
    rw [runRequests]
    refine ⟨by rw [hm2, hm1], by rw [hc2, hc1], le_trans hl1 hl2, ?_⟩
    rw [hr2, hr1]
    constructor
    · rintro ((h | h) | h)
      · exact Or.inl h
      · exact Or.inr (lt_of_lt_of_le h hl2)
      · exact Or.inr (lt_of_le_of_lt hl1 h)
    · rintro (h | h)
      · exact Or.inl (Or.inl h)
      · rcases lt_or_le st.cassette.length (handleRequest send st r).2.1.cassette.length with
          h' | h'
        · exact Or.inl (Or.inr h')
        · exact Or.inr (lt_of_le_of_lt h' h)

/-- When no registered stand-in is the recording callback, handling a
request leaves the whole recorder state untouched and performs no real
call. -/
theorem handleRequest_no_record {ε : Type} (send : LiveRequest → Except ε LiveResponse)
    (st : RecorderState) (req : LiveRequest)
    (h : ∀ reg ∈ st.responses.callbacks, reg.callback ≠ StandIn.record) :
    (handleRequest send st req).2.1 = st ∧ (handleRequest send st req).2.2 = [] := by
  rw [handleRequest]
  cases hm : findMatch st.responses.callbacks req with
  | none => exact ⟨rfl, rfl⟩
  | some reg =>
    have hmem : reg ∈ st.responses.callbacks := by
      have := List.mem_of_find?_eq_some hm
      exact this
    cases hcb : reg.callback with
    | record => exact absurd hcb (h reg hmem)
    | play resp =>
      simp [hcb]

/-- In a session whose stand-ins are all playback callbacks, running any
request sequence leaves the state untouched, emits no transport events,
and answers each request from its matching stand-in alone. -/
theorem runRequests_no_record {ε : Type} (send : LiveRequest → Except ε LiveResponse)
    (st : RecorderState)
    (h : ∀ reg ∈ st.responses.callbacks, reg.callback ≠ StandIn.record) :
    ∀ reqs : List LiveRequest,
    runRequests send st reqs = (st, reqs.map (fun r => (handleRequest send st r).1), []) := by
  intro reqs
  induction reqs with
  | nil => rw [runRequests]; simp
  | cons r rs ih =>
    obtain ⟨hst, hev⟩ := handleRequest_no_record send st r h
    rw [runRequests, hst, hev, ih]
    simp

end Recorder

namespace Recorder

/-- A recording session handles a sequence of GET requests to http URLs by
performing each real call, appending one encoded track per call, and
returning the real status/stripped-headers/body to the caller. -/
theorem runRequests_recording {ε : Type} (send : LiveRequest → Except ε LiveResponse)
    (resp : LiveRequest → LiveResponse) :
    ∀ (reqs : List LiveRequest) (st : RecorderState),
    st.responses.callbacks =
      [{ method := "GET", pattern := UrlPattern.allHttp, callback := StandIn.record }] →
    st.responses.started = true →
    (∀ r ∈ reqs, r.method = "GET") →
    (∀ r ∈ reqs, startsWithL r.url.data ['h', 't', 't', 'p'] = true) →
    (∀ r ∈ reqs, send r = .ok (resp r)) →
    runRequests send st reqs =
      ({ st with
         cassette := st.cassette ++ reqs.map (fun r => encodeTrack r (resp r)),
         has_recorded := st.has_recorded || !reqs.isEmpty },
       reqs.map (fun r =>
         .ok ((resp r).status_code, recordHeaders (resp r), (recordBody (resp r)).2)),
       reqs.map Event.realCall) := by
  intro reqs
  induction reqs with
  | nil =>
    intro st _ _ _ _ _
    rw [runRequests]
    simp
  | cons r rs ih =>
    intro st hcb hstart hmeth hurl hsend
    obtain ⟨cas, hrec, ⟨stt, cbs⟩, md⟩ := st
    dsimp only at hcb hstart
    subst hcb
    subst hstart
    have hm := hmeth r (by simp)
    have hu := hurl r (by simp)
    have hs := hsend r (by simp)
    have hfind : findMatch
        [{ method := "GET", pattern := UrlPattern.allHttp, callback := StandIn.record }] r =
        some { method := "GET", pattern := UrlPattern.allHttp, callback := StandIn.record } := by
      rw [findMatch]
      apply List.find?_cons_of_pos
      simp [urlMatches, hm, hu]
    have hstep : handleRequest send
        ⟨cas, hrec, ⟨true, [{ method := "GET", pattern := UrlPattern.allHttp,
                              callback := StandIn.record }]⟩, md⟩ r =
        (.ok ((resp r).status_code, recordHeaders (resp r), (recordBody (resp r)).2),
         ⟨cas ++ [encodeTrack r (resp r)], true,
          ⟨true, [{ method := "GET", pattern := UrlPattern.allHttp,
                    callback := StandIn.record }]⟩, md⟩,
         [.realCall r]) := by
      rw [handleRequest]
      rw [hfind]
      rw [record, hs]
    rw [runRequests]
    simp only [hstep]
    have htail := ih ⟨cas ++ [encodeTrack r (resp r)], true,
        ⟨true, [{ method := "GET", pattern := UrlPattern.allHttp,
                  callback := StandIn.record }]⟩, md⟩
      rfl rfl
      (fun r' hr' => hmeth r' (by simp [hr']))
      (fun r' hr' => hurl r' (by simp [hr']))
      (fun r' hr' => hsend r' (by simp [hr']))
    simp only [htail]
    simp [List.append_assoc]

/-- Playback matching: when `t` is the unique track of the cassette whose
URL equals the request's URL, and its method matches, dispatch finds
exactly `t`'s stand-in. -/
theorem findMatch_rewind (req : LiveRequest) :
    ∀ (ts : List Track) (t : Track),
    t ∈ ts →
    t.request.url = req.url →
    t.request.method = req.method →
    (∀ t' ∈ ts, t'.request.url = req.url → t' = t) →
    findMatch (rewind_registrations ts) req =
      some { method := t.request.method, pattern := .exactUrl t.request.url,
             callback := .play t.response } := by
  intro ts
  induction ts with
  | nil =>
    intro t h
    simp at h
  | cons t0 rest ih =>
    intro t hmem hurl hmeth huniq
    rw [rewind_registrations]
    simp only [List.map_cons]
    by_cases h0 : t0.request.url = req.url
    · have ht0 : t0 = t := huniq t0 (by simp) h0
      subst ht0
      rw [findMatch]
      rw [List.find?_cons_of_pos]
      simp [urlMatches, hmeth, h0]
    · have hne : t0 ≠ t := by
        rintro rfl
        exact h0 hurl
      have hmem' : t ∈ rest := by
        rcases List.mem_cons.mp hmem with h | h
        · exact absurd h.symm hne
        · exact h
      rw [findMatch, List.find?_cons_of_neg]
      · have := ih t hmem' hurl hmeth (fun t' ht' hu => huniq t' (by simp [ht']) hu)
        rw [findMatch, rewind_registrations] at this
        exact this
      · simp [urlMatches, h0]

/-- A playback stand-in answers from the stored track alone, without
touching the recorder state. -/
theorem handleRequest_play_of_findMatch {ε : Type} (send : LiveRequest → Except ε LiveResponse)
    (st : RecorderState) (req : LiveRequest) (m : String) (pat : UrlPattern)
    (tr : TrackResponse)
    (h : findMatch st.responses.callbacks req =
      some { method := m, pattern := pat, callback := .play tr }) :
    handleRequest send st req = (.ok (play tr req), st, []) := by
  rw [handleRequest, h]

end Recorder

namespace Recorder

/-- Inversion of a successful `setup`: what each branch establishes. -/
theorem setup_ok_fields (ex : Bool) (content : String) (st : RecorderState)
    (hok : setup ex content = .ok st) :
    st.has_recorded = false ∧ st.responses.started = true ∧
    st.mode = some (if ex then Mode.playing else Mode.recording) ∧
    (ex = false → st.responses.callbacks =
      [{ method := "GET", pattern := .allHttp, callback := .record }] ∧ st.cassette = []) ∧
    (ex = true → st.responses.callbacks = rewind_registrations st.cassette) := by
  cases ex
  · rw [setup] at hok
    simp only [Bool.not_false, if_true, Except.ok.injEq] at hok
    subst hok
    simp [setup_recording, initialState]
  · rw [setup] at hok
    simp only [Bool.not_true, Bool.false_eq_true, if_false] at hok
    rw [setup_playback] at hok
    split at hok
    · exact absurd hok (by simp)
    · split at hok
      · exact absurd hok (by simp)
      · simp only [Except.ok.injEq] at hok
        subst hok
        simp [initialState]

/-- None of the stand-ins registered by `rewind_cassette` is the
recording callback. -/
theorem rewind_no_record (ts : List Track) :
    ∀ reg ∈ rewind_registrations ts, reg.callback ≠ StandIn.record := by
  intro reg hreg
  rw [rewind_registrations] at hreg
  obtain ⟨t, _, rfl⟩ := List.mem_map.mp hreg
  simp

/-- After the case-insensitive delete, no case-insensitive lookup of the
same key succeeds. -/
theorem ciLookup_ciDel (hs : Headers) (k : String) : ciLookup (ciDel hs k) k = none := by
  induction hs with
  | nil => rfl
  | cons p t ih =>
    rw [ciDel, List.filter]
    by_cases h : keyEq p.1 k = true
    · simp only [h, Bool.not_true]
      rw [ciDel] at ih
      exact ih
    · simp only [Bool.not_eq_true] at h
      simp only [h, Bool.not_false]
      rw [ciLookup, List.find?]
      simp only [h]
      rw [ciLookup] at ih
      rw [ciDel] at ih
      exact ih

/-- When the response body parsed as JSON, the body string handed to the
caller during recording is the dump of the stored body value. -/
theorem dumps_recordBody (x : LiveResponse) (h : (loads x.text).isSome = true) :
    dumps (recordBody x).1 = (recordBody x).2 := by
  rw [recordBody]
  cases hl : loads x.text with
  | some v => simp [hl]
  | none =>
    rw [hl] at h
    simp at h

end Recorder

/-! ## Sample data for concrete witnesses -/

/-- A GET request to an http URL with a query string. -/
def sampleGet : LiveRequest :=
  { method := "GET", url := "http://example.com/users?id=1",
    path_url := "/users?id=1", headers := [], body := none }

/-- The same request with method POST. -/
def samplePost : LiveRequest :=
  { method := "POST", url := "http://example.com/users?id=1",
    path_url := "/users?id=1", headers := [], body := none }

/-- A live response whose body is plain text (not valid JSON). -/
def textResp : LiveResponse :=
  { status_code := 200, headers := [("X-Frame", "deny")], text := "ok" }

/-- A live response advertising a gzip content encoding. -/
def gzResp : LiveResponse :=
  { status_code := 200,
    headers := [("Content-Encoding", "gzip"), ("X-Frame", "deny")], text := "ok" }

/-- A transport oracle that always raises. -/
def noSend : LiveRequest → Except Unit LiveResponse := fun _ => .error ()

/-- A transport oracle answering with the text response. -/
def sendText : LiveRequest → Except Unit LiveResponse := fun _ => .ok textResp

/-- A transport oracle answering with the gzip-marked response. -/
def sendGz : LiveRequest → Except Unit LiveResponse := fun _ => .ok gzResp

/-- The recorder state right after `setup` chose recording mode. -/
def recSt : RecorderState :=
  { cassette := [], has_recorded := false,
    responses := { started := true,
                   callbacks := [{ method := "GET", pattern := .allHttp,
                                   callback := .record }] },
    mode := some .recording }

/-- The recorder state after `setup` loaded an empty cassette file. -/
def playEmptySt : RecorderState :=
  { cassette := [], has_recorded := false,
    responses := { started := true, callbacks := [] }, mode := some .playing }

/-! ## The claims -/

/-- C1, counterexample: the claim says the recording stand-in matches
every outgoing request regardless of HTTP method, so that the recording
callback runs for each one.  The code registers the catch-all only for
`responses.GET`: during a recording session a POST request matches no
stand-in — dispatch raises `ConnectionError`, no real call happens and no
track is recorded, so the recording callback was not invoked. -/
theorem c1_counterexample :
    (Recorder.setup false "").toOption.map (fun st =>
      ((Recorder.handleRequest noSend st samplePost).1,
       (Recorder.handleRequest noSend st samplePost).2.2,
       (Recorder.handleRequest noSend st samplePost).2.1.cassette.length)) =
    some (.error .connectionError, [], 0) := rfl

/-- C1 (amended): in recording mode, setup installs a single stand-in
registered for the GET method with the wildcard pattern
`re.compile("http.*")`; every GET request whose URL starts with `"http"`
is dispatched to the recording callback. -/
theorem c1_amended (content : String) (st : RecorderState)
    (hok : Recorder.setup false content = .ok st)
    (req : LiveRequest) (hm : req.method = "GET")
    (hu : startsWithL req.url.data ['h', 't', 't', 'p'] = true) :
    findMatch st.responses.callbacks req =
      some { method := "GET", pattern := .allHttp, callback := .record } := by
  obtain ⟨_, _, _, hrec, _⟩ := Recorder.setup_ok_fields false content st hok
  obtain ⟨hcbs, _⟩ := hrec rfl
  rw [hcbs, findMatch]
  apply List.find?_cons_of_pos
  simp [urlMatches, hm, hu]

/-- C1 (amended), witness at a concrete GET request. -/
theorem c1_amended_witness :
    findMatch recSt.responses.callbacks sampleGet =
      some { method := "GET", pattern := .allHttp, callback := .record } :=
  c1_amended "" recSt rfl sampleGet rfl (by decide)

/-- C3: round-trip of the codec.  For any live exchange, the playback
response built from the encoded track has the original status code, the
original headers minus the stripped content-encoding header, and a body
string that re-parses to the stored decoded body: the parsed JSON value
when the payload was JSON, and the raw decoded text (as a JSON string)
otherwise. -/
theorem c3_roundtrip (req : LiveRequest) (resp : LiveResponse) :
    (Recorder.play (Recorder.encodeTrack req resp).response req).1 = resp.status_code ∧
    (Recorder.play (Recorder.encodeTrack req resp).response req).2.1 =
      (if containsStr (ciGetD resp.headers "Content-Encoding" "") "gzip" = true
       then ciDel resp.headers "Content-Encoding" else resp.headers) ∧
    (match loads resp.text with
     | some v =>
        loads (Recorder.play (Recorder.encodeTrack req resp).response req).2.2 = some v
     | none =>
        loads (Recorder.play (Recorder.encodeTrack req resp).response req).2.2 =
          some (.str resp.text)) := by
  refine ⟨rfl, rfl, ?_⟩
  cases hl : loads resp.text with
  | some v =>
    simp only [hl, Recorder.play, Recorder.encodeTrack, Recorder.recordBody]
    exact loads_dumps v
  | none =>
    simp only [hl, Recorder.play, Recorder.encodeTrack, Recorder.recordBody]
    exact loads_dumps (.str resp.text)

/-- C4: content-encoding stripping.  If the live response carries a
(case-insensitively matched) `Content-Encoding` header whose value
mentions `gzip`, the recorded track's response headers no longer contain
that header, and neither do the headers the recording callback returns to
the caller. -/
theorem c4_strip {ε : Type} (send : LiveRequest → Except ε LiveResponse)
    (st : RecorderState) (req : LiveRequest) (resp : LiveResponse)
    (hsend : send req = .ok resp)
    (v : String) (hce : ciLookup resp.headers "Content-Encoding" = some v)
    (hgz : containsStr v "gzip" = true) :
    (Recorder.record send st req).2.1.cassette =
      st.cassette ++ [Recorder.encodeTrack req resp] ∧
    ciLookup (Recorder.encodeTrack req resp).response.headers "Content-Encoding" = none ∧
    (Recorder.record send st req).1 =
      .ok (resp.status_code, Recorder.recordHeaders resp, (Recorder.recordBody resp).2) ∧
    ciLookup (Recorder.recordHeaders resp) "Content-Encoding" = none := by
  have hrh : Recorder.recordHeaders resp = ciDel resp.headers "Content-Encoding" := by
    rw [Recorder.recordHeaders]
    rw [show ciGetD resp.headers "Content-Encoding" "" = v from by rw [ciGetD, hce]; rfl]
    rw [if_pos hgz]
  refine ⟨?_, ?_, ?_, ?_⟩
  · rw [Recorder.record, hsend]
  · show ciLookup (Recorder.recordHeaders resp) "Content-Encoding" = none
    rw [hrh]
    exact Recorder.ciLookup_ciDel _ _
  · rw [Recorder.record, hsend]
  · rw [hrh]
    exact Recorder.ciLookup_ciDel _ _

/-- C4, witness at a concrete gzip-marked response. -/
theorem c4_witness :
    ciLookup (Recorder.encodeTrack sampleGet gzResp).response.headers "Content-Encoding" =
      none ∧
    ciLookup (Recorder.recordHeaders gzResp) "Content-Encoding" = none := by
  have h := c4_strip sendGz Recorder.initialState sampleGet gzResp rfl "gzip"
    (by decide) (by decide)
  exact ⟨h.2.1, h.2.2.2⟩

/-- C5: the mode is decided once at setup, solely by cassette-file
existence — no file ⇒ recording, file ⇒ playback — and no request handled
during the session ever changes it. -/
theorem c5_mode {ε : Type} (send : LiveRequest → Except ε LiveResponse)
    (ex : Bool) (content : String) (st : RecorderState)
    (hok : Recorder.setup ex content = .ok st) (reqs : List LiveRequest) :
    st.mode = some (if ex then Mode.playing else Mode.recording) ∧
    (Recorder.runRequests send st reqs).1.mode = st.mode := by
  refine ⟨(Recorder.setup_ok_fields ex content st hok).2.2.1, ?_⟩
  exact (Recorder.runRequests_inv send reqs st).1

/-- C5, witness at a concrete recording session. -/
theorem c5_witness :
    recSt.mode = some (if false then Mode.playing else Mode.recording) ∧
    (Recorder.runRequests noSend recSt [sampleGet]).1.mode = recSt.mode :=
  c5_mode noSend false "" recSt rfl [sampleGet]

/-- C6: at-most-one write.  After any session (either mode) and any
request sequence, teardown stops interception and clears every stand-in;
it writes the cassette file iff the session appended at least one track;
and a playback session never writes. -/
theorem c6_teardown {ε : Type} (send : LiveRequest → Except ε LiveResponse)
    (ex : Bool) (content : String) (st0 : RecorderState)
    (hok : Recorder.setup ex content = .ok st0) (reqs : List LiveRequest) :
    ((Recorder.teardown (Recorder.runRequests send st0 reqs).1).2.isSome = true ↔
      st0.cassette.length < (Recorder.runRequests send st0 reqs).1.cassette.length) ∧
    (Recorder.teardown (Recorder.runRequests send st0 reqs).1).1.responses.started = false ∧
    (Recorder.teardown (Recorder.runRequests send st0 reqs).1).1.responses.callbacks = [] ∧
    (ex = true → (Recorder.teardown (Recorder.runRequests send st0 reqs).1).2 = none) := by
  obtain ⟨hhr, hstart, hmode, hrec, hplay⟩ := Recorder.setup_ok_fields ex content st0 hok
  obtain ⟨_, _, _, hr2⟩ := Recorder.runRequests_inv send reqs st0
  have hts : ∀ s : RecorderState, (Recorder.teardown s).2.isSome = true ↔ s.has_recorded = true := by
    intro s
    rw [Recorder.teardown]
    by_cases h : s.has_recorded = true
    · simp [h]
    · simp [h]
  refine ⟨?_, ?_, ?_, ?_⟩
  · rw [hts, hr2, hhr]
    simp
  · rw [Recorder.teardown]
    split <;> rfl
  · rw [Recorder.teardown]
    split <;> rfl
  · intro hex
    subst hex
    have hnr := Recorder.runRequests_no_record send st0
      (by rw [hplay rfl]; exact Recorder.rewind_no_record _) reqs
    rw [hnr]
    simp [Recorder.teardown, hhr]

/-- C6, witness at a concrete recording session with no requests. -/
theorem c6_witness :
    ((Recorder.teardown (Recorder.runRequests noSend recSt []).1).2.isSome = true ↔
      recSt.cassette.length < (Recorder.runRequests noSend recSt []).1.cassette.length) ∧
    (Recorder.teardown (Recorder.runRequests noSend recSt []).1).1.responses.started = false ∧
    (Recorder.teardown (Recorder.runRequests noSend recSt []).1).1.responses.callbacks = [] ∧
    (false = true → (Recorder.teardown (Recorder.runRequests noSend recSt []).1).2 = none) :=
  c6_teardown noSend false "" recSt rfl []

/-- C7: recording failure semantics.  If the real call raises, the
recording callback re-raises the same exception, interception is restarted
by the `finally` (`started = true`), and neither the cassette nor the
`has_recorded` flag changes: no track is appended for the failed call. -/
theorem c7_exception {ε : Type} (send : LiveRequest → Except ε LiveResponse)
    (st : RecorderState) (req : LiveRequest) (e : ε) (hsend : send req = .error e) :
    (Recorder.record send st req).1 = .error (.sendError e) ∧
    (Recorder.record send st req).2.1.cassette = st.cassette ∧
    (Recorder.record send st req).2.1.has_recorded = st.has_recorded ∧
    (Recorder.record send st req).2.1.responses.started = true ∧
    (Recorder.record send st req).2.1.responses.callbacks = st.responses.callbacks ∧
    (Recorder.record send st req).2.2 = [.realCall req] := by
  rw [Recorder.record, hsend]
  exact ⟨rfl, rfl, rfl, rfl, rfl, rfl⟩

/-- C7, witness at a concrete failing transport. -/
theorem c7_witness :
    (Recorder.record noSend Recorder.initialState sampleGet).1 = .error (.sendError ()) ∧
    (Recorder.record noSend Recorder.initialState sampleGet).2.1.cassette =
      Recorder.initialState.cassette ∧
    (Recorder.record noSend Recorder.initialState sampleGet).2.1.has_recorded =
      Recorder.initialState.has_recorded ∧
    (Recorder.record noSend Recorder.initialState sampleGet).2.1.responses.started = true ∧
    (Recorder.record noSend Recorder.initialState sampleGet).2.1.responses.callbacks =
      Recorder.initialState.responses.callbacks ∧
    (Recorder.record noSend Recorder.initialState sampleGet).2.2 = [.realCall sampleGet] :=
  c7_exception noSend Recorder.initialState sampleGet () rfl

/-- C8: no real I/O during playback.  In a session set up in playback
mode, handling any request sequence leaves the recorder state untouched
and performs zero calls to the underlying HTTP client (no transport
events). -/
theorem c8_no_real_io {ε : Type} (send : LiveRequest → Except ε LiveResponse)
    (content : String) (st : RecorderState)
    (hok : Recorder.setup true content = .ok st) (reqs : List LiveRequest) :
    (Recorder.runRequests send st reqs).2.2 = [] ∧
    (Recorder.runRequests send st reqs).1 = st := by
  obtain ⟨_, _, _, _, hplay⟩ := Recorder.setup_ok_fields true content st hok
  have h := Recorder.runRequests_no_record send st
    (by rw [hplay rfl]; exact Recorder.rewind_no_record _) reqs
  rw [h]
  exact ⟨rfl, rfl⟩

/-- C8, witness at a playback session loaded from an empty cassette. -/
theorem c8_witness :
    (Recorder.runRequests noSend playEmptySt [sampleGet]).2.2 = [] ∧
    (Recorder.runRequests noSend playEmptySt [sampleGet]).1 = playEmptySt :=
  c8_no_real_io noSend "[]" playEmptySt rfl [sampleGet]

/-- C9: corrupt cassette.  When the cassette file exists but its content
is not valid JSON (`json.loads` raises), playback setup fails with the
corrupt-cassette error during `_insert_cassette`, and the recorder state
at that point has no stand-in registered (`callbacks = []`). -/
theorem c9_corrupt (content : String) (h : loads content = none) :
    Recorder.setup true content =
      .error (.corruptCassette,
        { cassette := [], has_recorded := false,
          responses := { started := true, callbacks := [] }, mode := none }) := by
  rw [Recorder.setup]
  simp only [Bool.not_true, Bool.false_eq_true, if_false]
  rw [Recorder.setup_playback, h]
  rfl

/-- C9, witness at a concrete non-JSON file content. -/
theorem c9_witness :
    Recorder.setup true "#" =
      .error (.corruptCassette,
        { cassette := [], has_recorded := false,
          responses := { started := true, callbacks := [] }, mode := none }) :=
  c9_corrupt "#" rfl

/-- C10: a playback stand-in's response is independent of the live
request — any two requests reaching it get the identical
(status, headers, body-string) triple, computed from the stored track
response alone. -/
theorem c10_play_ignores_request (tr : TrackResponse) (req1 req2 : LiveRequest) :
    Recorder.play tr req1 = Recorder.play tr req2 ∧
    Recorder.play tr req1 = (tr.status_code, tr.headers, dumps tr.body) :=
  ⟨rfl, rfl⟩

/-- A live response with a JSON array body. -/
def jsonResp : LiveResponse :=
  { status_code := 200, headers := [], text := "[1, 2]" }

/-- A transport oracle answering with the JSON response. -/
def sendJson : LiveRequest → Except Unit LiveResponse := fun _ => .ok jsonResp

/-- The playback state reached after reloading the one-track cassette that
records `sampleGet` against the plain-text response. -/
def playOneSt : RecorderState :=
  { cassette := [Recorder.encodeTrack sampleGet textResp],
    has_recorded := false,
    responses := { started := true,
                   callbacks := Recorder.rewind_registrations
                     [Recorder.encodeTrack sampleGet textResp] },
    mode := some .playing }

/-- C2, counterexample: the claim promises responses bit-identical across
record-then-persist-then-replay.  Recording a GET request whose response
body is the non-JSON text `ok` returns the body string `ok`; after
persisting and reloading the cassette, replaying the same request returns
`json.dumps("ok")`, i.e. the five-character string `"ok"` — the two body
strings differ, so the replayed response is not bit-identical. -/
theorem c2_counterexample :
    Recorder.setup false "" = .ok recSt ∧
    (Recorder.handleRequest sendText recSt sampleGet).1 =
      .ok (200, [("X-Frame", "deny")], "ok") ∧
    (Recorder.teardown (Recorder.handleRequest sendText recSt sampleGet).2.1).2 =
      some (dumps (cassetteToJson [Recorder.encodeTrack sampleGet textResp])) ∧
    Recorder.setup true (dumps (cassetteToJson [Recorder.encodeTrack sampleGet textResp])) =
      .ok playOneSt ∧
    (Recorder.handleRequest noSend playOneSt sampleGet).1 =
      .ok (200, [("X-Frame", "deny")], "\"ok\"") ∧
    ("ok" : String) ≠ "\"ok\"" := by
  refine ⟨rfl, rfl, rfl, ?_, rfl, by decide⟩
  rw [Recorder.setup]
  simp only [Bool.not_true, Bool.false_eq_true, if_false]
  exact setup_playback_of_dump _ _

/-- C2 (amended): record-then-play idempotence for the exchanges the
engine records faithfully.  For every sequence of GET requests to http
URLs with pairwise-distinct URLs whose responses all carry JSON bodies:
recording the sequence, persisting the cassette at teardown, and replaying
the same sequence in a playback session yields the identical list of
results — same status codes, same headers, and bit-identical body
strings. -/
theorem c2_amended {ε : Type} (send send2 : LiveRequest → Except ε LiveResponse)
    (resp : LiveRequest → LiveResponse) (reqs : List LiveRequest)
    (hne : reqs ≠ [])
    (hmeth : ∀ r ∈ reqs, r.method = "GET")
    (hurl : ∀ r ∈ reqs, startsWithL r.url.data ['h', 't', 't', 'p'] = true)
    (hnodup : (reqs.map (fun r => r.url)).Nodup)
    (hsend : ∀ r ∈ reqs, send r = .ok (resp r))
    (hjson : ∀ r ∈ reqs, (loads (resp r).text).isSome = true)
    (st1 : RecorderState) (h1 : Recorder.setup false "" = .ok st1) :
    ∃ content st2,
      (Recorder.teardown (Recorder.runRequests send st1 reqs).1).2 = some content ∧
      Recorder.setup true content = .ok st2 ∧
      (Recorder.runRequests send2 st2 reqs).2.1 =
        (Recorder.runRequests send st1 reqs).2.1 := by
  obtain ⟨hhr, hstart, hmode, hrec, _⟩ := Recorder.setup_ok_fields false "" st1 h1
  obtain ⟨hcbs, hcas⟩ := hrec rfl
  have hrun := Recorder.runRequests_recording send resp reqs st1 hcbs hstart hmeth hurl hsend
  have hempty : reqs.isEmpty = false := by
    cases reqs with
    | nil => exact absurd rfl hne
    | cons a l => rfl
  have hteardown : (Recorder.teardown (Recorder.runRequests send st1 reqs).1).2 =
      some (dumps (cassetteToJson
        (reqs.map (fun r => Recorder.encodeTrack r (resp r))))) := by
    rw [hrun]
    simp [Recorder.teardown, hhr, hcas, hempty]
  refine ⟨dumps (cassetteToJson (reqs.map (fun r => Recorder.encodeTrack r (resp r)))),
    { cassette := reqs.map (fun r => Recorder.encodeTrack r (resp r)),
      has_recorded := false,
      responses := { started := true,
                     callbacks := Recorder.rewind_registrations
                       (reqs.map (fun r => Recorder.encodeTrack r (resp r))) },
      mode := some .playing },
    hteardown, ?_, ?_⟩
  · rw [Recorder.setup]
    simp only [Bool.not_true, Bool.false_eq_true, if_false]
    exact setup_playback_of_dump
      (reqs.map (fun r => Recorder.encodeTrack r (resp r)))
      { cassette := [], has_recorded := false,
        responses := { started := true, callbacks := [] }, mode := none }
  · have hrun2 := Recorder.runRequests_no_record send2
      { cassette := reqs.map (fun r => Recorder.encodeTrack r (resp r)),
        has_recorded := false,
        responses := { started := true,
                       callbacks := Recorder.rewind_registrations
                         (reqs.map (fun r => Recorder.encodeTrack r (resp r))) },
        mode := some .playing }
      (Recorder.rewind_no_record _) reqs
    rw [hrun2, hrun]
    dsimp only
    apply List.map_congr_left
    intro r hr
    have hmem : Recorder.encodeTrack r (resp r) ∈
        reqs.map (fun r => Recorder.encodeTrack r (resp r)) :=
      List.mem_map_of_mem _ hr
    have huniq : ∀ t' ∈ reqs.map (fun r => Recorder.encodeTrack r (resp r)),
        t'.request.url = r.url → t' = Recorder.encodeTrack r (resp r) := by
      intro t' ht' hu
      obtain ⟨r', hr', rfl⟩ := List.mem_map.mp ht'
      have hru : r'.url = r.url := hu
      have := List.inj_on_of_nodup_map hnodup hr' hr hru
      rw [this]
    have hfm := Recorder.findMatch_rewind r
      (reqs.map (fun r => Recorder.encodeTrack r (resp r)))
      (Recorder.encodeTrack r (resp r)) hmem rfl rfl huniq
    have hstep := Recorder.handleRequest_play_of_findMatch send2
      { cassette := reqs.map (fun r => Recorder.encodeTrack r (resp r)),
        has_recorded := false,
        responses := { started := true,
                       callbacks := Recorder.rewind_registrations
                         (reqs.map (fun r => Recorder.encodeTrack r (resp r))) },
        mode := some .playing }
      r _ _ _ hfm
    rw [hstep]
    have hdb := Recorder.dumps_recordBody (resp r) (hjson r hr)
    simp [Recorder.play, Recorder.encodeTrack, hdb]

/-- C2 (amended), witness at one concrete GET request with a JSON body. -/
theorem c2_amended_witness :
    ∃ content st2,
      (Recorder.teardown (Recorder.runRequests sendJson recSt [sampleGet]).1).2 =
        some content ∧
      Recorder.setup true content = .ok st2 ∧
      (Recorder.runRequests noSend st2 [sampleGet]).2.1 =
        (Recorder.runRequests sendJson recSt [sampleGet]).2.1 :=
  c2_amended sendJson noSend (fun _ => jsonResp) [sampleGet]
    (by simp)
    (by intro r hr; simp at hr; subst hr; rfl)
    (by intro r hr; simp at hr; subst hr; decide)
    (by simp)
    (by intro r hr; rfl)
    (by intro r hr; show (loads jsonResp.text).isSome = true; decide)
    recSt rfl
